import Mathlib

/-!
Verification of the GoNext generated runtime (src/testDir/main.go and the
identical runtime template in cmd/root.go): the embedded static-asset HTTP
server with SPA fallback, the backend child-process supervisor, and the
graceful-shutdown coordinator.

Go strings are modelled as `List Char`; the embedded asset tree as a finite
association list from slash-separated relative file paths to file contents.
The relevant Go standard-library semantics (io/fs.ValidPath, embed.FS /
fs.Sub open behavior, path.Clean, net/http's file server) are embedded
faithfully for plain GET requests without Range/conditional headers, since
the claims concern only status codes and bodies.
-/

set_option autoImplicit false

namespace GoNext

abbrev Bytes := List Char
abbrev Path := List Char

/-- The characters of a string literal, used to write path constants. -/
def chars (s : String) : List Char := s.data

/-- Go strings.TrimPrefix: removes one occurrence of the given leading string, if present. -/
def trimPref (s pre : List Char) : List Char :=
  if pre.isPrefixOf s then s.drop pre.length else s

/-- Go strings.HasSuffix. -/
def hasSuffix (s suf : List Char) : Bool := suf.isSuffixOf s

/-- Go strings.TrimSuffix: removes one occurrence of the given trailing string, if present. -/
def trimSuf (s suf : List Char) : List Char :=
  if suf.isSuffixOf s then s.take (s.length - suf.length) else s

/-- Splitting a Go string at every '/' (as the element loops of io/fs.ValidPath
and path.Clean do); always returns at least one element. -/
def splitSlash : List Char → List (List Char)
  | [] => [[]]
  | c :: rest =>
    if c = '/' then [] :: splitSlash rest
    else
      match splitSlash rest with
      | [] => [[c]]
      | s :: ss => (c :: s) :: ss

/-- Element check of io/fs.ValidPath: nonempty and distinct from "." and "..". -/
def segOK (e : List Char) : Bool :=
  decide (e ≠ [] ∧ e ≠ chars "." ∧ e ≠ chars "..")

/-- Go io/fs.ValidPath: "." is valid; otherwise every slash-separated element
must be nonempty and distinct from "." and "..", which also rules out the
empty name, rooted names, and names with a trailing or doubled slash. -/
def validPath (name : List Char) : Bool :=
  if name = chars "." then true
  else (splitSlash name).all segOK

/-- The embedded asset tree: the files below the embed root (after fs.Sub),
as pairs of a slash-separated relative path and the file's bytes. -/
abbrev Tree := List (Path × Bytes)

def lookupFile : Tree → Path → Option Bytes
  | [], _ => none
  | (p, c) :: t, name => if p = name then some c else lookupFile t name

/-- Whether `name` opens as a directory of the tree: the root "." always does,
and so does every proper ancestor directory of some stored file. -/
def isDirIn (t : Tree) (name : Path) : Bool :=
  name = chars "." || t.any fun e => (name ++ chars "/").isPrefixOf e.1

/-- Result of fsys.Open on the embedded filesystem: a regular file with its
contents, a directory handle, or an error (invalid name / no such entry). -/
inductive OpenRes where
  | file (content : Bytes)
  | dir
  | errInvalid
  | errNotFound
deriving DecidableEq

def OpenRes.isErr : OpenRes → Bool
  | .errInvalid => true
  | .errNotFound => true
  | _ => false

/-- fsys.Open(name) for the embedded sub-filesystem (embed.FS behind fs.Sub):
invalid names are rejected; otherwise a stored file opens as a file and an
existing directory opens as a directory handle. -/
def fsOpen (t : Tree) (name : Path) : OpenRes :=
  if !validPath name then .errInvalid
  else
    match lookupFile t name with
    | some c => .file c
    | none => if isDirIn t name then .dir else .errNotFound

/-- Well-formedness of an embedded asset tree, true of every tree the Go
embed mechanism can produce: every stored path is a valid io/fs path and
names a file, never the root ".". -/
def treeWF (t : Tree) : Bool :=
  t.all fun e => validPath e.1 && decide (e.1 ≠ chars ".")

/-- Source function fileExists (src/testDir/main.go lines 88–96): "/" is
rewritten to "index.html", one leading "/" is stripped, and the result is
whether fsys.Open succeeds. -/
def fileExists (t : Tree) (filePath : Path) : Bool :=
  let fp := if filePath = chars "/" then chars "index.html" else filePath
  !(fsOpen t (trimPref fp (chars "/"))).isErr

/-- The element-stack step of Go path.Clean: empty and "." elements are
dropped; ".." pops the previous element when one is available, is dropped at
the root of a rooted path, and is kept otherwise. `acc` is the reversed stack. -/
def cleanSegs (rooted : Bool) : List (List Char) → List (List Char) → List (List Char)
  | acc, [] => acc.reverse
  | acc, e :: es =>
    if e = [] ∨ e = chars "." then cleanSegs rooted acc es
    else if e = chars ".." then
      match acc with
      | [] => if rooted then cleanSegs rooted [] es else cleanSegs rooted [chars ".."] es
      | top :: acc2 =>
        if top = chars ".." then cleanSegs rooted (e :: acc) es
        else cleanSegs rooted acc2 es
    else cleanSegs rooted (e :: acc) es

/-- Joining path elements with '/' (the inverse of splitSlash). -/
def joinSlash : List (List Char) → List Char
  | [] => []
  | [e] => e
  | e :: es => e ++ '/' :: joinSlash es

/-- Go path.Clean, via the equivalent element-stack formulation: the result is
the cleaned elements joined by '/', with a leading '/' kept for rooted paths,
and "." for an empty result. -/
def pathClean (p : List Char) : List Char :=
  if p = [] then chars "."
  else
    let rooted : Bool := decide (p.head? = some '/')
    let segs := cleanSegs rooted [] (splitSlash p)
    let out := (if rooted then chars "/" else []) ++ joinSlash segs
    if out = [] then chars "." else out

/-- An HTTP response body: ordinary bytes, or the generated HTML of
net/http's directory listing (whose exact text no claim depends on). -/
inductive Body where
  | bytes (b : Bytes)
  | listing
deriving DecidableEq

/-- An HTTP response, reduced to the data the claims are about. -/
structure Response where
  status : Nat
  body : Body
deriving DecidableEq

/-- http.Error(w, msg, code): sets the status and writes msg plus a newline. -/
def httpError (msg : String) (code : Nat) : Response :=
  ⟨code, .bytes (chars msg ++ ['\n'])⟩

/-- localRedirect in net/http/fs.go: 301 with a Location header and no body. -/
def localRedirect : Response := ⟨301, .bytes []⟩

/-- http.ServeContent for a plain GET without Range or conditional headers:
status 200 with the full content. -/
def serveContentPlain (content : Bytes) : Response := ⟨200, .bytes content⟩

/-- The http.FS adapter (ioFS.Open in net/http/filesystem.go): "/" opens ".",
otherwise one leading "/" is stripped before opening. -/
def ioFSName (name : List Char) : List Char :=
  if name = chars "/" then chars "." else trimPref name (chars "/")

/-- serveFile in net/http/fs.go (with redirect=true, for a plain GET):
a URL ending in "/index.html" is redirected to its directory; an open failure
becomes an HTTP error; a file URL with a trailing slash is redirected,
otherwise the file is served; a directory URL without a trailing slash is
redirected, otherwise its index.html is served if present and a directory
listing is generated if not. -/
def serveFileGo (t : Tree) (url : List Char) (name : List Char) : Response :=
  if hasSuffix url (chars "/index.html") then localRedirect
  else
    match fsOpen t (ioFSName name) with
    | .errInvalid => httpError "500 Internal Server Error" 500
    | .errNotFound => httpError "404 page not found" 404
    | .file content =>
      if url.getLast? = some '/' then localRedirect
      else serveContentPlain content
    | .dir =>
      if url.getLast? ≠ some '/' then localRedirect
      else
        match fsOpen t (ioFSName (trimSuf name (chars "/") ++ chars "/index.html")) with
        | .file content => serveContentPlain content
        | _ => ⟨200, .listing⟩

/-- The handler built by http.FileServer(http.FS(fsys)): ensure a leading "/"
on the URL path, then serveFile on the cleaned path. -/
def fileServerServe (t : Tree) (urlPath : List Char) : Response :=
  let upath := if (chars "/").isPrefixOf urlPath then urlPath else '/' :: urlPath
  serveFileGo t upath (pathClean upath)

/-- The request handler registered by startServer (src/testDir/main.go lines
57–80): serve the literal file through the file server when fileExists holds,
otherwise read index.html at the tree root and serve its bytes (404 when it
cannot be opened, 500 when it opens but cannot be read, e.g. is a directory). -/
def handleReq (t : Tree) (urlPath : Path) : Response :=
  if fileExists t urlPath then fileServerServe t urlPath
  else
    match fsOpen t (chars "index.html") with
    | .file content => serveContentPlain content
    | .dir => httpError "failed to read index.html" 500
    | _ => httpError "index.html not found" 404

/-- A path with every leading '/' character removed, naming the file that a
doubled-slash request would denote after removing all leading separators. -/
def dropLeadingSlashes (p : Path) : Path := p.dropWhile fun c => decide (c = '/')

/-! ## Runtime lifecycle model: startBackend, the deferred kill, startHTTPServer, main -/

/-- Status of the backend child process. -/
inductive ProcStatus where
  | running
  | exited
deriving DecidableEq

/-- os.Process.Kill: kills a running process; on a process that has already
finished it returns the error os.ErrProcessDone ("os: process already
finished") instead of killing anything, and in either case it returns at once. -/
def procKill : ProcStatus → ProcStatus × Option String
  | .running => (.exited, none)
  | .exited => (.exited, some "os: process already finished")

/-- An exec.Cmd handle as main uses it: its Process field is nil until
cmd.Start has succeeded. -/
structure Cmd where
  process : Option ProcStatus
deriving DecidableEq

/-- The deferred cleanup registered by main (src/testDir/main.go lines
134–139): when the handle and its Process field are non-nil, call
Process.Kill and discard its result. -/
def deferredKill : Option Cmd → Option Cmd
  | none => none
  | some c =>
    match c.process with
    | none => some c
    | some st => some ⟨some (procKill st).1⟩

/-- Observable events of one run of the generated runtime, in program order. -/
inductive Ev where
  /-- startBackend: cmd.Start is invoked. -/
  | spawnAttempt
  /-- cmd.Start returned nil: the backend child process is running. -/
  | backendStarted
  /-- The goroutine in startHTTPServer calls server.ListenAndServe. -/
  | listenAttempt
  /-- The listener is bound and accepting connections. -/
  | accepting
  /-- The receive from the signal channel returns: termination signal observed. -/
  | sigReceived
  /-- server.Shutdown returned nil within the 5-second bound. -/
  | drained
  /-- The deferred backendCmd.Process.Kill() runs. -/
  | killBackend
  /-- log.Fatalf: os.Exit with the given code, skipping deferred functions. -/
  | exitFatal (code : Nat)
  /-- main returns normally; the process exits with status 0, after defers. -/
  | exitNormal
deriving DecidableEq

/-- One run of main (src/testDir/main.go lines 123–155) linearized as an
event trace, parameterized by the outcomes of its external effects: whether
cmd.Start succeeds, whether fs.Sub succeeds inside startServer, whether
ListenAndServe binds its port, whether a termination signal ever arrives,
and whether server.Shutdown completes within its 5-second bound. log.Fatalf
calls os.Exit, which terminates the process immediately without running
deferred functions; only a normal return from main runs the deferred kill.
When no signal ever arrives (and the listener stays up) the process never
exits and the trace simply has no exit event. -/
def runMain (spawnOk subOk bindOk sigArrives shutdownOk : Bool) : List Ev :=
  if !spawnOk then
    [.spawnAttempt, .exitFatal 1]
  else if !subOk then
    [.spawnAttempt, .backendStarted, .exitFatal 1]
  else if !bindOk then
    [.spawnAttempt, .backendStarted, .listenAttempt, .exitFatal 1]
  else if !sigArrives then
    [.spawnAttempt, .backendStarted, .listenAttempt, .accepting]
  else if !shutdownOk then
    [.spawnAttempt, .backendStarted, .listenAttempt, .accepting, .sigReceived, .exitFatal 1]
  else
    [.spawnAttempt, .backendStarted, .listenAttempt, .accepting, .sigReceived, .drained,
      .killBackend, .exitNormal]

/-! ## Environment and port configuration -/

/-- os.Getenv over an environment modelled as an association list: returns
the value, or the empty string when the variable is absent. -/
def getenv (env : List (String × String)) (key : String) : String :=
  match env.lookup key with
  | some v => v
  | none => ""

/-- The port computation in main (src/testDir/main.go lines 124–127):
read PORT and default to "8080" when it is empty. -/
def resolvePort (env : List (String × String)) : String :=
  let port := getenv env "PORT"
  if port = "" then "8080" else port

/-- The bind address fmt.Sprintf(":%s", port) given to http.Server
(src/testDir/main.go lines 148–151). -/
def serverAddr (env : List (String × String)) : String :=
  ":" ++ resolvePort env

/-! ## Helper lemmas about the path functions and asset trees -/

theorem splitSlash_ne_nil (l : List Char) : splitSlash l ≠ [] := by
  cases l with
  | nil => simp [splitSlash]
  | cons c rest =>
    simp only [splitSlash]
    split
    · simp
    · split <;> simp_all

theorem joinSlash_splitSlash (l : List Char) : joinSlash (splitSlash l) = l := by
  induction l with
  | nil => rfl
  | cons c rest ih =>
    simp only [splitSlash]
    split
    · rename_i hc
      cases hs : splitSlash rest with
      | nil => exact absurd hs (splitSlash_ne_nil rest)
      | cons s ss =>
        rw [hs] at ih
        simp [joinSlash, hc, ih]
    · rename_i hc
      cases hs : splitSlash rest with
      | nil => exact absurd hs (splitSlash_ne_nil rest)
      | cons s ss =>
        rw [hs] at ih
        cases ss with
        | nil => simp_all [joinSlash]
        | cons s2 ss2 => simp_all [joinSlash]

theorem exists_append_of_getLast (l : List Char) (a : Char) (h : l.getLast? = some a) :
    ∃ l2, l = l2 ++ [a] := by
  induction l with
  | nil => simp at h
  | cons x r ih =>
    cases r with
    | nil =>
      simp [List.getLast?] at h
      exact ⟨[], by simp [h]⟩
    | cons y s =>
      rw [List.getLast?_cons_cons] at h
      obtain ⟨l2, hl⟩ := ih h
      exact ⟨x :: l2, by simp [hl]⟩

theorem splitSlash_append_slash (l : List Char) :
    splitSlash (l ++ ['/']) = splitSlash l ++ [[]] := by
  induction l with
  | nil => rfl
  | cons c rest ih =>
    simp only [List.cons_append, splitSlash]
    split
    · simp [ih]
    · have ih2 : splitSlash (rest.append ['/']) = splitSlash rest ++ [[]] := ih
      rw [ih2]
      cases hs : splitSlash rest with
      | nil => exact absurd hs (splitSlash_ne_nil rest)
      | cons s ss => simp [hs]

theorem getLast_ne_slash (f : List Char) (h : (splitSlash f).all segOK = true) :
    f.getLast? ≠ some '/' := by
  intro hlast
  obtain ⟨l2, rfl⟩ := exists_append_of_getLast f '/' hlast
  rw [splitSlash_append_slash] at h
  simp [List.all_append, segOK] at h

theorem cleanSegs_all_ok (rooted : Bool) (es : List (List Char)) :
    ∀ acc, es.all segOK = true → cleanSegs rooted acc es = acc.reverse ++ es := by
  induction es with
  | nil => intro acc _; simp [cleanSegs]
  | cons e es ih =>
    intro acc h
    simp only [List.all_cons, Bool.and_eq_true] at h
    obtain ⟨he, hes⟩ := h
    simp only [segOK, decide_eq_true_eq] at he
    obtain ⟨h1, h2, h3⟩ := he
    simp only [cleanSegs]
    rw [if_neg (by simp [h1, h2]), if_neg h3, ih (e :: acc) hes]
    simp

theorem validPath_elems (f : List Char) (hv : validPath f = true) (hd : f ≠ chars ".") :
    (splitSlash f).all segOK = true := by
  unfold validPath at hv
  rwa [if_neg hd] at hv

theorem validPath_ne_nil (f : List Char) (hv : validPath f = true) : f ≠ [] := by
  intro hnil
  rw [hnil] at hv
  exact absurd hv (by decide)

theorem pathClean_rooted_valid (f : List Char) (hv : validPath f = true)
    (hd : f ≠ chars ".") : pathClean ('/' :: f) = '/' :: f := by
  have hall := validPath_elems f hv hd
  have hsplit : splitSlash ('/' :: f) = [] :: splitSlash f := by simp [splitSlash]
  have hseg : cleanSegs true [] ([] :: splitSlash f) = splitSlash f := by
    simp only [cleanSegs]
    rw [if_pos (by simp), cleanSegs_all_ok true (splitSlash f) [] hall]
    rfl
  unfold pathClean
  rw [if_neg (List.cons_ne_nil '/' f)]
  simp only [List.head?_cons, eq_self_iff_true, decide_True, if_true, hsplit, hseg,
    joinSlash_splitSlash]
  rw [if_neg (show chars "/" ++ f ≠ [] from fun h => List.cons_ne_nil '/' f h)]
  rfl

theorem trimPref_slash_cons (f : List Char) : trimPref ('/' :: f) (chars "/") = f := by
  simp [trimPref, chars, List.isPrefixOf]

theorem treeWF_lookup (t : Tree) (f : Path) (c : Bytes) (hwf : treeWF t = true)
    (h : lookupFile t f = some c) : validPath f = true ∧ f ≠ chars "." := by
  induction t with
  | nil => simp [lookupFile] at h
  | cons e t ih =>
    obtain ⟨p, b⟩ := e
    simp only [treeWF, List.all_cons, Bool.and_eq_true] at hwf
    obtain ⟨⟨hv, hd⟩, ht⟩ := hwf
    simp only [lookupFile] at h
    by_cases hp : p = f
    · subst hp
      exact ⟨hv, by simpa using hd⟩
    · rw [if_neg hp] at h
      exact ih ht h

theorem treeWF_lookup_dot (t : Tree) (hwf : treeWF t = true) :
    lookupFile t (chars ".") = none := by
  induction t with
  | nil => rfl
  | cons e t ih =>
    obtain ⟨p, b⟩ := e
    simp only [treeWF, List.all_cons, Bool.and_eq_true] at hwf
    obtain ⟨⟨hv, hd⟩, ht⟩ := hwf
    simp only [lookupFile]
    rw [if_neg (by simpa using hd)]
    exact ih ht

theorem fsOpen_file (t : Tree) (f : Path) (c : Bytes) (hv : validPath f = true)
    (h : lookupFile t f = some c) : fsOpen t f = .file c := by
  unfold fsOpen
  rw [if_neg (by simp [hv]), h]

/-! ## Claim C1: SPA fallback -/

/-- Claim C1 counterexample: with index.html present and a directory dir
(holding a file), the request path /dir does not correspond to any file in
the asset tree, yet the handler answers with a 301 redirect produced by the
file server, not with the 200 SPA fallback the claim asserts. -/
theorem spa_fallback_claim_cex :
    ¬ ((handleReq [(chars "index.html", chars "<html>ok</html>"),
          (chars "dir/file.txt", chars "x")] (chars "/dir")).status = 200 ∧
       (handleReq [(chars "index.html", chars "<html>ok</html>"),
          (chars "dir/file.txt", chars "x")] (chars "/dir")).body
         = .bytes (chars "<html>ok</html>")) := by decide

/-- Claim C1 (amended): the SPA fallback is taken exactly when the handler's
file-existence check fails, i.e. when opening the stripped request path fails
(invalid name, or no file and no directory there); in that case, when
index.html exists at the tree root, the response is 200 with the entry
document's bytes. A path naming an existing directory opens successfully and
is instead answered by the file server (with a redirect), never the fallback. -/
theorem spa_fallback_amended (t : Tree) (p : Path) (c : Bytes)
    (hidx : lookupFile t (chars "index.html") = some c)
    (hmiss : fileExists t p = false) :
    handleReq t p = ⟨200, .bytes c⟩ := by
  have hopen : fsOpen t (chars "index.html") = .file c :=
    fsOpen_file t _ c (by decide) hidx
  simp [handleReq, hmiss, hopen, serveContentPlain]

/-- Claim C1 amended witness: a client-route path with no corresponding file
is served the entry document. -/
theorem spa_fallback_amended_witness :
    handleReq [(chars "index.html", chars "<html>ok</html>")] (chars "/dashboard/settings")
      = ⟨200, .bytes (chars "<html>ok</html>")⟩ :=
  spa_fallback_amended _ _ _ (by decide) (by decide)

/-! ## Claim C2: literal files are served with status 200 and their bytes -/

/-- Claim C2 counterexample: index.html exists as a literal file, yet the
request /index.html is answered with a 301 redirect (net/http's canonical
redirect of ".../index.html" to "./"), not 200 with the file's bytes. -/
theorem literal_file_claim_cex :
    ¬ ((handleReq [(chars "index.html", chars "<html>ok</html>")]
          (chars "/index.html")).status = 200 ∧
       (handleReq [(chars "index.html", chars "<html>ok</html>")]
          (chars "/index.html")).body = .bytes (chars "<html>ok</html>")) := by decide

/-- Claim C2 (amended): for every request path "/" ++ f where f is a file of
the (well-formed) asset tree and the path does not end in "/index.html", the
response is 200 with that file's bytes; paths ending in "/index.html" are
301-redirected instead. -/
theorem literal_file_amended (t : Tree) (f : Path) (c : Bytes) (hwf : treeWF t = true)
    (hfile : lookupFile t f = some c)
    (hsfx : hasSuffix ('/' :: f) (chars "/index.html") = false) :
    handleReq t ('/' :: f) = ⟨200, .bytes c⟩ := by
  obtain ⟨hv, hd⟩ := treeWF_lookup t f c hwf hfile
  have hall := validPath_elems f hv hd
  have hfne : f ≠ [] := validPath_ne_nil f hv
  have hopen : fsOpen t f = .file c := fsOpen_file t f c hv hfile
  have hne_root : ('/' :: f) ≠ chars "/" := by
    show ('/' :: f) ≠ ['/']
    intro h
    injection h with h1 h2
    exact hfne h2
  have hfe : fileExists t ('/' :: f) = true := by
    simp only [fileExists]
    rw [if_neg hne_root, trimPref_slash_cons, hopen]
    rfl
  have hlast : ('/' :: f).getLast? ≠ some '/' := by
    cases f with
    | nil => exact absurd rfl hfne
    | cons y r =>
      rw [List.getLast?_cons_cons]
      exact getLast_ne_slash (y :: r) hall
  have hio : ioFSName ('/' :: f) = f := by
    simp only [ioFSName]
    rw [if_neg hne_root, trimPref_slash_cons]
  have hpre : (chars "/").isPrefixOf ('/' :: f) = true := by
    show List.isPrefixOf ['/'] ('/' :: f) = true
    simp [List.isPrefixOf]
  simp only [handleReq, hfe, if_true]
  simp only [fileServerServe, hpre, if_true]
  rw [pathClean_rooted_valid f hv hd]
  simp only [serveFileGo, hsfx, Bool.false_eq_true, if_false, hio, hopen]
  rw [if_neg hlast]
  rfl

/-- Claim C2 amended witness: style.css is served literally with its bytes. -/
theorem literal_file_amended_witness :
    handleReq [(chars "index.html", chars "<html>ok</html>"),
        (chars "style.css", chars "body{}")] ('/' :: chars "style.css")
      = ⟨200, .bytes (chars "body{}")⟩ :=
  literal_file_amended _ _ _ (by decide) (by decide) (by decide)

/-! ## Claim C5: 404 when the entry document is absent -/

/-- Claim C5 counterexample: with no index.html in the tree, the path /dir
names no existing file, yet the response is a 301 redirect (dir is an
existing directory), not the 404 the claim asserts for every such path. -/
theorem missing_index_404_cex :
    (handleReq [(chars "dir/file.txt", chars "x")] (chars "/dir")).status ≠ 404 := by decide

/-- Claim C5 (amended): when opening index.html at the tree root fails, the
file-existence check fails for "/" itself, and every request for which that
check fails (including "/" and every path opening neither a file nor a
directory) is answered 404 with body "index.html not found"; a path naming
an existing directory is 301-redirected instead. -/
theorem missing_index_404_amended (t : Tree) (p : Path)
    (hidx : fsOpen t (chars "index.html") = .errNotFound) :
    fileExists t (chars "/") = false ∧
      (fileExists t p = false → handleReq t p = httpError "index.html not found" 404) := by
  constructor
  · simp only [fileExists, if_true]
    rw [show trimPref (chars "index.html") (chars "/") = chars "index.html" from by decide]
    rw [hidx]
    rfl
  · intro hmiss
    simp [handleReq, hmiss, hidx]

/-- Claim C5 amended witness: on the empty tree, "/" fails the existence
check and is answered 404. -/
theorem missing_index_404_amended_witness :
    fileExists ([] : Tree) (chars "/") = false ∧
      handleReq ([] : Tree) (chars "/") = httpError "index.html not found" 404 := by
  have h := missing_index_404_amended [] (chars "/") (by decide)
  exact ⟨h.1, h.2 h.1⟩

/-! ## Claim C6: "/" versus "/index.html" -/

/-- Claim C6 counterexample: with index.html present as a literal file, the
request "/" gets 200 with the entry bytes while "/index.html" gets a 301
redirect with an empty body — different statuses and different bodies. -/
theorem root_vs_index_cex :
    handleReq [(chars "index.html", chars "<html>ok</html>")] (chars "/")
      ≠ handleReq [(chars "index.html", chars "<html>ok</html>")] (chars "/index.html") := by
  decide

/-- Claim C6 (amended): when the entry document exists as a literal file of a
well-formed tree, a request for "/" and a request for "/index.html" both pass
the fileExists check, but they are not handled equivalently: "/" is served
200 with the entry document's bytes (via the file server's directory-index
logic), whereas "/index.html" receives net/http's canonical 301 redirect. -/
theorem root_vs_index_amended (t : Tree) (c : Bytes) (hwf : treeWF t = true)
    (hidx : lookupFile t (chars "index.html") = some c) :
    handleReq t (chars "/") = ⟨200, .bytes c⟩ ∧
      handleReq t (chars "/index.html") = localRedirect := by
  have hopen : fsOpen t (chars "index.html") = .file c :=
    fsOpen_file t _ c (by decide) hidx
  have htrim : trimPref (chars "index.html") (chars "/") = chars "index.html" := by decide
  constructor
  · have hfe : fileExists t (chars "/") = true := by
      simp only [fileExists, if_true]
      rw [htrim, hopen]
      rfl
    have hdot : fsOpen t (chars ".") = .dir := by
      unfold fsOpen
      rw [if_neg (by decide), treeWF_lookup_dot t hwf]
      simp [isDirIn]
    have hio : ioFSName (chars "/") = chars "." := by decide
    have hidxname :
        ioFSName (trimSuf (chars "/") (chars "/") ++ chars "/index.html")
          = chars "index.html" := by decide
    have hclean : pathClean (chars "/") = chars "/" := by decide
    have hpre : (chars "/").isPrefixOf (chars "/") = true := by decide
    simp only [handleReq, hfe, if_true]
    simp only [fileServerServe, hpre, if_true, hclean]
    simp only [serveFileGo,
      show hasSuffix (chars "/") (chars "/index.html") = false from by decide,
      Bool.false_eq_true, if_false, hio, hdot]
    rw [if_neg (by decide)]
    rw [hidxname, hopen]
    rfl
  · have hfe : fileExists t (chars "/index.html") = true := by
      simp only [fileExists]
      rw [if_neg (by decide)]
      rw [show trimPref (chars "/index.html") (chars "/") = chars "index.html" from by decide]
      rw [hopen]
      rfl
    have hpre : (chars "/").isPrefixOf (chars "/index.html") = true := by decide
    simp only [handleReq, hfe, if_true]
    simp only [fileServerServe, hpre, if_true]
    simp only [serveFileGo,
      show hasSuffix (chars "/index.html") (chars "/index.html") = true from by decide,
      if_true]

/-- Claim C6 amended witness: concrete one-file tree. -/
theorem root_vs_index_amended_witness :
    handleReq [(chars "index.html", chars "<html>ok</html>")] (chars "/")
        = ⟨200, .bytes (chars "<html>ok</html>")⟩ ∧
      handleReq [(chars "index.html", chars "<html>ok</html>")] (chars "/index.html")
        = localRedirect :=
  root_vs_index_amended _ _ (by decide) (by decide)

/-! ## Claim C10: doubled leading separators -/

/-- Claim C10: a request path that begins with a doubled separator fails the
file-existence check — strings.TrimPrefix removes only one "/", and the
embedded filesystem rejects names with a remaining leading "/" — and is
therefore served the SPA fallback document, even when the file named after
removing all leading separators exists in the tree. -/
theorem doubled_slash_fallback (t : Tree) (rest : Path) (c d : Bytes)
    (hidx : lookupFile t (chars "index.html") = some c)
    (_hfile : lookupFile t (dropLeadingSlashes ('/' :: '/' :: rest)) = some d) :
    fileExists t ('/' :: '/' :: rest) = false ∧
      handleReq t ('/' :: '/' :: rest) = ⟨200, .bytes c⟩ := by
  have hinv : validPath ('/' :: rest) = false := by
    have hsplit : splitSlash ('/' :: rest) = [] :: splitSlash rest := by simp [splitSlash]
    unfold validPath
    rw [if_neg (by show ('/' :: rest) ≠ ['.']; intro h; injection h with h1 h2; exact absurd h1 (by decide))]
    rw [hsplit]
    simp [segOK]
  have hne : ('/' :: '/' :: rest) ≠ chars "/" := by
    show ('/' :: '/' :: rest) ≠ ['/']
    intro h
    injection h with h1 h2
    exact List.cons_ne_nil '/' rest h2
  have hfe : fileExists t ('/' :: '/' :: rest) = false := by
    simp only [fileExists]
    rw [if_neg hne, trimPref_slash_cons]
    simp [fsOpen, hinv, OpenRes.isErr]
  refine ⟨hfe, ?_⟩
  have hopen : fsOpen t (chars "index.html") = .file c :=
    fsOpen_file t _ c (by decide) hidx
  simp [handleReq, hfe, hopen, serveContentPlain]

/-- Claim C10 witness: //style.css is served the fallback document although
style.css exists. -/
theorem doubled_slash_fallback_witness :
    fileExists [(chars "index.html", chars "<html>ok</html>"),
        (chars "style.css", chars "body{}")] ('/' :: '/' :: chars "style.css") = false ∧
      handleReq [(chars "index.html", chars "<html>ok</html>"),
        (chars "style.css", chars "body{}")] ('/' :: '/' :: chars "style.css")
        = ⟨200, .bytes (chars "<html>ok</html>")⟩ :=
  doubled_slash_fallback _ _ _ (chars "body{}") (by decide) (by decide)

/-! ## Claim C3: backend terminated on every exit path -/

/-- Claim C3 failing runs: with the backend spawned successfully, the fatal
exits taken when fs.Sub fails in startServer, when ListenAndServe cannot
bind, and when server.Shutdown errors all go through log.Fatalf, i.e.
os.Exit(1), which skips the deferred Process.Kill — the trace reaches an
exit without ever containing the kill event. -/
theorem backend_kill_skipped_on_fatal :
    runMain true false true true true = [.spawnAttempt, .backendStarted, .exitFatal 1] ∧
      Ev.killBackend ∉ runMain true false true true true ∧
      Ev.killBackend ∉ runMain true true false true true ∧
      Ev.killBackend ∉ runMain true true true true false := by decide

/-! ## Claim C4: shutdown errors are benign -/

/-- Claim C4 counterexample: when server.Shutdown errors (drain exceeding its
5-second bound), the run ends in log.Fatalf — a fatal exit with code 1 — and
the deferred backend kill never happens, contradicting "never fatal" and
"shutdown proceeds to completion". -/
theorem shutdown_error_fatal_cex :
    Ev.exitFatal 1 ∈ runMain true true true true false ∧
      Ev.killBackend ∉ runMain true true true true false := by decide

/-- Claim C4 (amended): a graceful-drain failure is fatal, not benign: on a
server.Shutdown error the process logs fatally and exits immediately with
code 1, skipping the deferred backend kill; only the backend termination
request's own error is swallowed (Process.Kill's result is discarded, so a
kill of an already-exited process changes nothing and surfaces no error). -/
theorem shutdown_error_amended :
    runMain true true true true false
        = [.spawnAttempt, .backendStarted, .listenAttempt, .accepting, .sigReceived,
            .exitFatal 1] ∧
      Ev.killBackend ∉ runMain true true true true false ∧
      deferredKill (some ⟨some ProcStatus.exited⟩) = some ⟨some ProcStatus.exited⟩ := by
  exact ⟨rfl, by decide, rfl⟩

/-! ## Claim C7: terminating an already-terminated backend handle -/

/-- Claim C7: the deferred termination of the backend handle is idempotent
and safe on an already-exited process: running it twice equals running it
once, running it on an exited process leaves the state unchanged, and the
os.ErrProcessDone error Kill reports in that case is discarded rather than
propagated (deferredKill returns no error by construction, mirroring the
ignored return value in main). -/
theorem terminate_idempotent :
    (∀ h, deferredKill (deferredKill h) = deferredKill h) ∧
      deferredKill (some ⟨some ProcStatus.exited⟩) = some ⟨some ProcStatus.exited⟩ ∧
      (procKill ProcStatus.exited).1 = ProcStatus.exited ∧
      (procKill ProcStatus.exited).2.isSome = true := by
  refine ⟨?_, rfl, rfl, rfl⟩
  intro h
  rcases h with _ | ⟨_ | st⟩
  · rfl
  · rfl
  · cases st <;> rfl

/-! ## Claim C8: backend start precedes listening -/

/-- Claim C8: in every run of main, if the listener ever begins accepting
connections then the backend spawn attempt occurs strictly earlier in the
trace (it is in the prefix before the accepting event). -/
theorem backend_before_listen :
    ∀ s u b g d : Bool,
      Ev.accepting ∈ runMain s u b g d →
        Ev.spawnAttempt ∈ (runMain s u b g d).takeWhile fun e => decide (e ≠ Ev.accepting) := by
  decide

/-- Claim C8 witness: the all-successful run. -/
theorem backend_before_listen_witness :
    Ev.spawnAttempt ∈
      (runMain true true true true true).takeWhile fun e => decide (e ≠ Ev.accepting) :=
  backend_before_listen true true true true true (by decide)

/-! ## Claim C9: PORT environment variable with default 8080 -/

/-- Claim C9: the listen port is read from the environment variable PORT —
a set, nonempty value is used as-is — and when the variable is absent the
port defaults to "8080", so the server binds ":8080". -/
theorem port_env_default (env : List (String × String)) :
    (env.lookup "PORT" = none → resolvePort env = "8080" ∧ serverAddr env = ":8080") ∧
      (∀ v, env.lookup "PORT" = some v → v ≠ "" →
        resolvePort env = v ∧ serverAddr env = ":" ++ v) := by
  constructor
  · intro h
    have hp : resolvePort env = "8080" := by simp [resolvePort, getenv, h]
    exact ⟨hp, by simp [serverAddr, hp]⟩
  · intro v hv hne
    have hp : resolvePort env = v := by
      simp only [resolvePort, getenv, hv]
      rw [if_neg hne]
    exact ⟨hp, by simp [serverAddr, hp]⟩

/-- Claim C9 witness: empty environment defaults to 8080; PORT=3000 is used. -/
theorem port_env_default_witness :
    resolvePort [] = "8080" ∧ serverAddr [] = ":8080" ∧ resolvePort [("PORT", "3000")] = "3000" :=
  ⟨((port_env_default []).1 rfl).1, ((port_env_default []).1 rfl).2,
    ((port_env_default [("PORT", "3000")]).2 "3000" rfl (by decide)).1⟩

end GoNext
